import Mathlib

/-!
Verification of the Spherical markdown-normalization pipeline.

The four scripts (fix-markdown-tables.py, fix-4col-tables.py,
clean-empty-sections.py, fix-spacing.py) are shallowly embedded below.
Strings are modelled as `List Char`; the Python string primitives used by
the scripts (`strip`, `rstrip`, `startswith`, `endswith`, `in`, `count`,
`split` on a one-character separator, `join`, `lower`) are defined first,
then each script's functions are translated line by line.
-/

abbrev Chars := List Char

/-- Literal: the character list of a string literal. -/
def lit (s : String) : Chars := s.data

/-- Whitespace as Python's str.strip sees it (ASCII range). -/
def isWs (c : Char) : Bool := c.isWhitespace || c.toNat == 11 || c.toNat == 12

/-- Python str.lstrip(). -/
def lstrip (s : Chars) : Chars := s.dropWhile isWs

/-- Python str.rstrip(). -/
def rstrip (s : Chars) : Chars := (s.reverse.dropWhile isWs).reverse

/-- Python str.strip(). -/
def strip (s : Chars) : Chars := rstrip (lstrip s)

/-- Python s.startswith(pat). -/
def startswith : Chars → Chars → Bool
  | _, [] => true
  | [], _ :: _ => false
  | c :: s, p :: ps => c == p && startswith s ps

/-- Python s.endswith(pat). -/
def endswith (s pat : Chars) : Bool := startswith s.reverse pat.reverse

/-- Python `c in s` for a single character c. -/
def hasChar (c : Char) : Chars → Bool
  | [] => false
  | x :: s => x == c || hasChar c s

/-- Python `pat in s` (substring containment). -/
def isSub : Chars → Chars → Bool
  | pat, [] => pat.isEmpty
  | pat, c :: s => startswith (c :: s) pat || isSub pat s

/-- Python s.count(c) for a single character c. -/
def countChar (c : Char) : Chars → Nat
  | [] => 0
  | x :: s => (if x = c then 1 else 0) + countChar c s

/-- Python s.lower() (character-wise). -/
def lower (s : Chars) : Chars := s.map Char.toLower

/-- Helper for `splitChar`: first fragment and the remaining fragments. -/
def splitCharP (c : Char) : Chars → Chars × List Chars
  | [] => ([], [])
  | x :: xs =>
    let p := splitCharP c xs
    if x = c then ([], p.1 :: p.2) else (x :: p.1, p.2)

/-- Python s.split(c) for a one-character separator c. -/
def splitChar (c : Char) (s : Chars) : List Chars :=
  (splitCharP c s).1 :: (splitCharP c s).2

/-- Python sep.join(xs). -/
def joinSep (sep : Chars) : List Chars → Chars
  | [] => []
  | [x] => x
  | x :: y :: xs => x ++ sep ++ joinSep sep (y :: xs)

/-! ### fix-markdown-tables.py -/

/-- The two canonical lines emitted for a separator row
(fix-markdown-tables.py line 20, a single string with embedded newlines). -/
def canonicalRows : Chars :=
  lit "| Category | Specification | Value |\n|----------|---------------|-------|\n"

/-- `parts` as computed in fix_table_row (fix-markdown-tables.py lines 28-29):
split on the delimiter, strip each fragment, drop empty fragments. -/
def pipeParts (line : Chars) : List Chars :=
  ((splitChar '|' line).map strip).filter (fun p => !p.isEmpty)

/-- fix_table_row from fix-markdown-tables.py (lines 10-39). -/
def fix_table_row (line : Chars) : Chars :=
  if !startswith (strip line) (lit "|") then line
  else if isSub (lit "---") line then canonicalRows
  else if countChar '|' line = 4 then line
  else if 4 < countChar '|' line then
    if 3 < (pipeParts line).length then
      lit "| " ++ (if 0 < (pipeParts line).length then (pipeParts line).getD 0 [] else []) ++
      lit " | " ++ (if 1 < (pipeParts line).length then (pipeParts line).getD 1 [] else []) ++
      lit " | " ++ (if 2 < (pipeParts line).length then
                      joinSep (lit " - ") ((pipeParts line).drop 2) else []) ++
      lit " |\n"
    else line
  else line

/-- The line loop of fix_markdown_tables (fix-markdown-tables.py lines 44-64);
`in_table` is the loop flag, the head of `rest` is the `lines[i + 1]` lookahead. -/
def fmtGo : Bool → List Chars → List Chars
  | _, [] => []
  | in_table, line :: rest =>
    let started :=
      if hasChar '|' line && !in_table then
        (match rest with
         | next :: _ => isSub (lit "---") next
         | [] => false)
      else in_table
    if started && hasChar '|' line then
      rstrip (fix_table_row line) ::
        fmtGo (match rest with
               | next :: _ => if !hasChar '|' next then false else started
               | [] => started) rest
    else line :: fmtGo started rest

/-- fix_markdown_tables from fix-markdown-tables.py (lines 41-65). -/
def fix_markdown_tables (content : Chars) : Chars :=
  joinSep (lit "\n") (fmtGo false (splitChar '\n' content))

/-! ### fix-4col-tables.py -/

/-- The cell list of a row: split on the delimiter, drop the first and last
fragments (`parts[1:-1]`), strip each remaining fragment
(fix-4col-tables.py lines 19-20; also clean-empty-sections.py line 34). -/
def rowCells (line : Chars) : List Chars :=
  (((splitChar '|' line).drop 1).dropLast).map strip

/-- fix_table_line from fix-4col-tables.py (lines 10-30). -/
def fix_table_line (line : Chars) : Chars :=
  if !startswith (strip line) (lit "|") then line
  else
    match rowCells line with
    | [col1, col2, col3, col4] =>
      lit "| " ++ col1 ++ lit " | " ++ col2 ++ lit " | " ++
      (if !col3.isEmpty && !col4.isEmpty then col3 ++ lit " - " ++ col4
       else if !col3.isEmpty then col3 else col4) ++ lit " |\n"
    | _ => line

/-! ### clean-empty-sections.py -/

/-- The placeholder cell values of clean-empty-sections.py line 35. -/
def placeholdersL : List Chars :=
  [lit "Category", lit "Specification", lit "Value", lit "", lit "---"]

/-- The `elif` condition that stops the lookahead scan
(clean-empty-sections.py line 38): a nonempty line that is neither a table
row nor a heading. -/
def breaksScan (l : Chars) : Bool :=
  !l.isEmpty && !startswith l (lit "|") && !startswith l (lit "#")

/-- Line i matched `'(No' in line and 'found' in line.lower()`
(clean-empty-sections.py line 48). -/
def noFoundB (l : Chars) : Bool :=
  isSub (lit "(No") l && isSub (lit "found") (lower l)

/-- Line matched `line.startswith('## ') and line.endswith('(')`
(clean-empty-sections.py line 53). -/
def truncHeaderB (l : Chars) : Bool :=
  startswith l (lit "## ") && endswith l (lit "(")

/-- The inner lookahead loop of clean_markdown (clean-empty-sections.py lines
27-40), returning (has_data, final j). The Python loop runs while
`j < len(lines) and j < i + 5`; starting at j = i + 1, the second bound allows
at most 4 iterations, realized here by the structural fuel argument
(fuel = i + 5 - j, so 4 at entry). -/
def scanLoop (lines : List Chars) : Nat → Nat → Bool × Nat
  | j, 0 => (false, j)
  | j, fuel + 1 =>
    if j < lines.length then
      if startswith (strip (lines.getD j [])) (lit "|") &&
         !startswith (strip (lines.getD j [])) (lit "|---") then
        if hasChar '|' (strip (lines.getD j [])) &&
           4 ≤ countChar '|' (strip (lines.getD j [])) then
          if !(rowCells (strip (lines.getD j []))).isEmpty &&
             !((rowCells (strip (lines.getD j []))).all
                 (fun p => placeholdersL.contains p)) then
            (true, j)
          else scanLoop lines (j + 1) fuel
        else scanLoop lines (j + 1) fuel
      else if breaksScan (strip (lines.getD j [])) then (false, j)
      else scanLoop lines (j + 1) fuel
    else (false, j)

/-- The lookahead scan for the section starting at line i. -/
def scanData (lines : List Chars) (i : Nat) : Bool × Nat :=
  scanLoop lines (i + 1) 4

/-- The main `while i < len(lines)` loop of clean_markdown
(clean-empty-sections.py lines 20-59). The cursor i advances by at least one
on every iteration, so a structural fuel of `lines.length - i` realizes the
loop exactly: fuel runs out only once `i ≥ len(lines)`. -/
def cleanLoop (lines : List Chars) : Nat → Nat → List Chars
  | 0, _ => []
  | fuel + 1, i =>
    if i < lines.length then
      if startswith (strip (lines.getD i [])) (lit "## Specifications") &&
         !(scanData lines i).1 then
        cleanLoop lines fuel (scanData lines i).2
      else if noFoundB (strip (lines.getD i [])) then cleanLoop lines fuel (i + 1)
      else if truncHeaderB (strip (lines.getD i [])) then cleanLoop lines fuel (i + 1)
      else lines.getD i [] :: cleanLoop lines fuel (i + 1)
    else []

/-- The main loop entered at cursor i. -/
def cleanGo (lines : List Chars) (i : Nat) : List Chars :=
  cleanLoop lines (lines.length - i) i

/-- The blank-collapsing pass of clean_markdown (clean-empty-sections.py
lines 62-69): drop a blank line that follows another blank line. -/
def collapseBlanks : Bool → List Chars → List Chars
  | _, [] => []
  | prev_blank, line :: rest =>
    if (strip line).isEmpty && prev_blank then collapseBlanks prev_blank rest
    else line :: collapseBlanks ((strip line).isEmpty) rest

/-- clean_markdown from clean-empty-sections.py (lines 14-77). -/
def clean_markdown (content : Chars) : Chars :=
  joinSep (lit "\n")
    ((((collapseBlanks false
          (cleanGo (splitChar '\n' content) 0)).dropWhile
            (fun l => (strip l).isEmpty)).reverse.dropWhile
              (fun l => (strip l).isEmpty)).reverse)

/-! ### fix-spacing.py -/

/-- The character class `[a-zA-Z0-9).\]\*-]` of the regex on
fix-spacing.py line 16. -/
def isConcatChar (c : Char) : Bool :=
  c.isAlpha || c.isDigit || c == ')' || c == '.' || c == ']' || c == '*' || c == '-'

/-- The regex class `\s`. -/
def isSpaceRe (c : Char) : Bool := isWs c

/-- The `re.sub(r'([a-zA-Z0-9).\]\*-])(##\s)', r'\1\n\n\2', content)` pass
(fix-spacing.py line 16): left-to-right, non-overlapping. The scan consumes
at least one input character per step, so a structural fuel equal to the
input length realizes it exactly. -/
def fixConcatF : Nat → Chars → Chars
  | 0, s => s
  | fuel + 1, s =>
    match s with
    | [] => []
    | c1 :: rest =>
      match rest with
      | '#' :: '#' :: w :: rest2 =>
        if isConcatChar c1 && isSpaceRe w then
          c1 :: '\n' :: '\n' :: '#' :: '#' :: w :: fixConcatF fuel rest2
        else c1 :: fixConcatF fuel rest
      | _ => c1 :: fixConcatF fuel rest

/-- The regex substitution pass entered with full fuel. -/
def fixConcat (s : Chars) : Chars := fixConcatF s.length s

/-- The header pass of fix_markdown_spacing (fix-spacing.py lines 19-29):
insert a blank line before a `##` header when the previously emitted line
(the previous input line) is nonblank; `prev` is `none` on the first line. -/
def addBlankBefore : Option Chars → List Chars → List Chars
  | _, [] => []
  | prev, line :: rest =>
    (if startswith (strip line) (lit "##") &&
        (match prev with
         | some p => !(strip p).isEmpty
         | none => false)
     then [[]] else []) ++ line :: addBlankBefore (some line) rest

/-- The blank-capping pass of fix_markdown_spacing (fix-spacing.py lines
32-41): keep at most 2 consecutive blank lines. -/
def capBlanks : Nat → List Chars → List Chars
  | _, [] => []
  | blank_count, line :: rest =>
    if (strip line).isEmpty then
      if blank_count + 1 ≤ 2 then line :: capBlanks (blank_count + 1) rest
      else capBlanks (blank_count + 1) rest
    else line :: capBlanks 0 rest

/-- fix_markdown_spacing from fix-spacing.py (lines 12-43). -/
def fix_markdown_spacing (content : Chars) : Chars :=
  joinSep (lit "\n")
    (capBlanks 0 (addBlankBefore none (splitChar '\n' (fixConcat content))))

/-! ### CLI path selection (the `main` functions) -/

/-- Input/output path selection of fix-markdown-tables.py main
(lines 67-74): default output is the input path. -/
def tables_paths (argv : List Chars) : Option (Chars × Chars) :=
  if argv.length < 2 then none
  else some (argv.getD 1 [], if 2 < argv.length then argv.getD 2 [] else argv.getD 1 [])

/-- Input/output path selection of clean-empty-sections.py main
(lines 79-85): default output is the input path. -/
def clean_paths (argv : List Chars) : Option (Chars × Chars) :=
  if argv.length < 2 then none
  else some (argv.getD 1 [], if 2 < argv.length then argv.getD 2 [] else argv.getD 1 [])

/-- Input/output path selection of fix-spacing.py main (lines 45-51):
default output is the input path. -/
def spacing_paths (argv : List Chars) : Option (Chars × Chars) :=
  if argv.length < 2 then none
  else some (argv.getD 1 [], if 2 < argv.length then argv.getD 2 [] else argv.getD 1 [])

/-- Input/output path selection of fix-4col-tables.py main (lines 32-38):
default output is the input path with ".fixed" appended. -/
def fix4col_paths (argv : List Chars) : Option (Chars × Chars) :=
  if argv.length < 2 then none
  else some (argv.getD 1 [],
    if 2 < argv.length then argv.getD 2 [] else argv.getD 1 [] ++ lit ".fixed")

/-- The adjacency property the Spacing Normalizer establishes: a line is
blank whenever the following line is a `##` header. -/
def blankAfterHdr (a b : Chars) : Prop :=
  startswith (strip b) (lit "##") = true → strip a = []

/-! ## Helper lemmas -/

theorem splitCharP_nil (c : Char) : splitCharP c [] = ([], []) := rfl

theorem splitCharP_cons (c x : Char) (xs : Chars) :
    splitCharP c (x :: xs) =
      if x = c then ([], (splitCharP c xs).1 :: (splitCharP c xs).2)
      else (x :: (splitCharP c xs).1, (splitCharP c xs).2) := rfl

theorem splitCharP_len (c : Char) : ∀ s : Chars, (splitCharP c s).2.length = countChar c s := by
  intro s
  induction s with
  | nil => rfl
  | cons x xs ih =>
    rw [splitCharP_cons]
    by_cases h : x = c <;> simp [h, countChar, ih] <;> omega

theorem splitChar_len (c : Char) (s : Chars) :
    (splitChar c s).length = countChar c s + 1 := by
  simp [splitChar, splitCharP_len]

theorem splitCharP_fst_pre (c : Char) : ∀ s : Chars, ∃ u, (splitCharP c s).1 ++ u = s := by
  intro s
  induction s with
  | nil => exact ⟨[], rfl⟩
  | cons x xs ih =>
    rw [splitCharP_cons]
    by_cases h : x = c
    · exact ⟨x :: xs, by simp [h]⟩
    · obtain ⟨u, hu⟩ := ih
      exact ⟨u, by simp [h, hu]⟩

theorem startswith_nil (s : Chars) : startswith s [] = true := by
  cases s <;> rfl

theorem startswith_append (s pat u : Chars) :
    startswith s pat = true → startswith (s ++ u) pat = true := by
  induction pat generalizing s with
  | nil => intro _; exact startswith_nil _
  | cons p ps ih =>
    intro h
    cases s with
    | nil => simp [startswith] at h
    | cons a s' =>
      simp [startswith] at h ⊢
      exact ⟨h.1, ih s' h.2⟩

theorem isSub_nil_pat (s : Chars) : isSub [] s = true := by
  induction s with
  | nil => rfl
  | cons x xs ih => simp [isSub, startswith]

theorem isSub_cons_of (pat : Chars) (c : Char) (s : Chars) :
    isSub pat s = true → isSub pat (c :: s) = true := by
  intro h; simp [isSub, h]

theorem isSub_append (pat : Chars) : ∀ r u : Chars, isSub pat r = true → isSub pat (r ++ u) = true := by
  intro r
  induction r with
  | nil =>
    intro u h
    simp [isSub] at h
    simp [h, isSub_nil_pat]
  | cons x r' ih =>
    intro u h
    simp only [isSub, Bool.or_eq_true] at h
    rcases h with h | h
    · have := startswith_append _ pat u h
      simp only [List.cons_append] at this ⊢
      simp [isSub, this]
    · have := ih u h
      simp only [List.cons_append]
      exact isSub_cons_of _ _ _ this

theorem splitChar_isSub (c : Char) (pat : Chars) :
    ∀ s t : Chars, t ∈ splitChar c s → isSub pat t = true → isSub pat s = true := by
  intro s
  induction s with
  | nil =>
    intro t ht hsub
    simp [splitChar, splitCharP_nil] at ht
    subst ht
    exact hsub
  | cons x xs ih =>
    intro t ht hsub
    by_cases h : x = c
    · simp [splitChar, splitCharP_cons, h] at ht
      rcases ht with ht | ht
      · subst ht
        simp [isSub] at hsub
        simp [hsub, isSub_nil_pat]
      · have : t ∈ splitChar c xs := by
          simp [splitChar]
          rcases ht with ht | ht
          · exact Or.inl ht
          · exact Or.inr ht
        exact isSub_cons_of _ _ _ (ih t this hsub)
    · simp [splitChar, splitCharP_cons, h] at ht
      rcases ht with ht | ht
      · obtain ⟨u, hu⟩ := splitCharP_fst_pre c xs
        subst ht
        have h1 : isSub pat ((x :: (splitCharP c xs).1) ++ u) = true := isSub_append _ _ _ hsub
        rw [List.cons_append, hu] at h1
        exact h1
      · have : t ∈ splitChar c xs := by simp [splitChar, ht]
        exact isSub_cons_of _ _ _ (ih t this hsub)

theorem splitChar_hasChar (c : Char) :
    ∀ s t : Chars, t ∈ splitChar c s → hasChar c t = false := by
  intro s
  induction s with
  | nil =>
    intro t ht
    simp [splitChar, splitCharP_nil] at ht
    subst ht; rfl
  | cons x xs ih =>
    intro t ht
    by_cases h : x = c
    · simp [splitChar, splitCharP_cons, h] at ht
      rcases ht with ht | ht | ht
      · subst ht; rfl
      · exact ih t (by simp [splitChar, ht])
      · exact ih t (by simp [splitChar, ht])
    · simp [splitChar, splitCharP_cons, h] at ht
      rcases ht with ht | ht
      · subst ht
        have h1 : hasChar c (splitCharP c xs).1 = false :=
          ih _ (by simp [splitChar])
        simp [hasChar, h1, h]
      · exact ih t (by simp [splitChar, ht])

theorem splitCharP_no_c (c : Char) :
    ∀ s : Chars, hasChar c s = false → splitCharP c s = (s, []) := by
  intro s
  induction s with
  | nil => intro _; rfl
  | cons x xs ih =>
    intro h
    simp [hasChar] at h
    rw [splitCharP_cons]
    simp [h.1, ih h.2]

theorem splitCharP_sep (c : Char) :
    ∀ a b : Chars, hasChar c a = false →
      splitCharP c (a ++ c :: b) = (a, splitChar c b) := by
  intro a
  induction a with
  | nil =>
    intro b _
    simp [splitCharP_cons, splitChar]
  | cons x a' ih =>
    intro b h
    simp [hasChar] at h
    rw [List.cons_append, splitCharP_cons]
    simp [h.1, ih b h.2]

theorem joinSep_splitChar (c : Char) : ∀ s : Chars, joinSep [c] (splitChar c s) = s := by
  intro s
  induction s with
  | nil => rfl
  | cons x xs ih =>
    by_cases h : x = c
    · simp only [splitChar, splitCharP_cons, h, if_pos rfl]
      subst h
      simp only [joinSep]
      rw [show (splitCharP x xs).1 :: (splitCharP x xs).2 = splitChar x xs from rfl, ih]
      simp
    · simp only [splitChar, splitCharP_cons, if_neg h]
      rcases h2 : (splitCharP c xs).2 with _ | ⟨q, qs⟩
      · have : joinSep [c] (splitChar c xs) = xs := ih
        simp only [splitChar, h2, joinSep] at this
        simp [joinSep, this]
      · have this2 : (splitCharP c xs).1 ++ [c] ++ joinSep [c] (q :: qs) = xs := by
          have h3 : joinSep [c] (splitChar c xs) = xs := ih
          simp only [splitChar, h2, joinSep] at h3
          exact h3
        simp only [joinSep, List.cons_append, List.append_assoc] at this2 ⊢
        rw [this2]

theorem splitChar_joinSep (c : Char) :
    ∀ ls : List Chars, ls ≠ [] → (∀ t ∈ ls, hasChar c t = false) →
      splitChar c (joinSep [c] ls) = ls := by
  intro ls
  induction ls with
  | nil => intro h; exact absurd rfl h
  | cons l ls' ih =>
    intro _ hmem
    rcases ls' with _ | ⟨l2, ls''⟩
    · have h1 : hasChar c l = false := hmem l (by simp)
      simp [joinSep, splitChar, splitCharP_no_c c l h1]
    · have h1 : hasChar c l = false := hmem l (by simp)
      have step : joinSep [c] (l :: l2 :: ls'') = l ++ c :: joinSep [c] (l2 :: ls'') := by
        simp [joinSep]
      rw [step]
      have ihr : splitChar c (joinSep [c] (l2 :: ls'')) = l2 :: ls'' :=
        ih (by simp) (fun t ht => hmem t (by simp [ht]))
      simp only [splitChar, splitCharP_sep c l _ h1]
      simp only [splitChar] at ihr
      rw [ihr]

theorem lit_pipe : lit "|" = ['|'] := rfl

theorem lit_hh : lit "##" = ['#', '#'] := rfl

theorem lit_nl : lit "\n" = ['\n'] := rfl

theorem fmtGo_single (b : Bool) (line : Chars) :
    fmtGo b [line] =
      (if (if hasChar '|' line && !b then false else b) && hasChar '|' line then
        [rstrip (fix_table_row line)]
      else [line]) := rfl

theorem fmtGo_cons_cons (b : Bool) (line next : Chars) (rest : List Chars) :
    fmtGo b (line :: next :: rest) =
      (if (if hasChar '|' line && !b then isSub (lit "---") next else b) &&
          hasChar '|' line then
        rstrip (fix_table_row line) ::
          fmtGo (if !hasChar '|' next then false
                 else if hasChar '|' line && !b then isSub (lit "---") next else b)
            (next :: rest)
      else
        line :: fmtGo (if hasChar '|' line && !b then isSub (lit "---") next else b)
          (next :: rest)) := rfl

theorem fmtGo_no_dashes :
    ∀ ls : List Chars, (∀ l ∈ ls, isSub (lit "---") l = false) → fmtGo false ls = ls := by
  intro ls
  induction ls with
  | nil => intro _; rfl
  | cons line rest ih =>
    intro hmem
    have hrest : ∀ l ∈ rest, isSub (lit "---") l = false := fun l hl => hmem l (by simp [hl])
    rcases rest with _ | ⟨next, rest'⟩
    · rw [fmtGo_single]
      by_cases hp : hasChar '|' line = true <;> simp [hp]
    · have hn : isSub (lit "---") next = false := hmem next (by simp)
      rw [fmtGo_cons_cons, hn]
      by_cases hp : hasChar '|' line = true <;> simp [hp, ih hrest]

theorem fmt_identity (content : Chars) (h : isSub (lit "---") content = false) :
    fix_markdown_tables content = content := by
  have hlines : ∀ l ∈ splitChar '\n' content, isSub (lit "---") l = false := by
    intro l hl
    cases hv : isSub (lit "---") l with
    | false => rfl
    | true =>
      have := splitChar_isSub '\n' (lit "---") content l hl hv
      rw [h] at this
      exact absurd this (by simp)
  unfold fix_markdown_tables
  rw [fmtGo_no_dashes _ hlines, lit_nl, joinSep_splitChar]

theorem rowCells_len (line : Chars) :
    (rowCells line).length = countChar '|' line - 1 := by
  simp [rowCells, splitChar_len]

theorem startswith_pipe_hasChar (s : Chars) :
    startswith s (lit "|") = true → hasChar '|' s = true := by
  cases s with
  | nil => intro h; rw [lit_pipe] at h; simp [startswith] at h
  | cons a t =>
    intro h
    rw [lit_pipe] at h
    simp [startswith, startswith_nil] at h
    simp [hasChar, h]

theorem dropWhile_hash :
    ∀ u t : Chars, ∃ z, List.dropWhile isWs (u ++ '#' :: t) = z ++ '#' :: t := by
  intro u t
  have hws : isWs '#' = false := by decide
  induction u with
  | nil => exact ⟨[], by simp [List.dropWhile_cons, hws]⟩
  | cons x u' ih =>
    by_cases hx : isWs x = true
    · obtain ⟨z, hz⟩ := ih
      exact ⟨z, by simp [List.dropWhile_cons, hx, hz]⟩
    · exact ⟨x :: u', by simp [List.dropWhile_cons, hx]⟩

theorem startswith_strip_hash (l : Chars) (h : startswith l (lit "##") = true) :
    startswith (strip l) (lit "##") = true := by
  obtain ⟨t, rfl⟩ : ∃ t, l = '#' :: '#' :: t := by
    cases l with
    | nil => rw [lit_hh] at h; simp [startswith] at h
    | cons a l' =>
      cases l' with
      | nil => rw [lit_hh] at h; simp [startswith] at h
      | cons b t =>
        rw [lit_hh] at h
        simp [startswith, startswith_nil] at h
        exact ⟨t, by rw [h.1, h.2]⟩
  have hws : isWs '#' = false := by decide
  have hl : lstrip ('#' :: '#' :: t) = '#' :: '#' :: t := by
    simp [lstrip, List.dropWhile_cons, hws]
  unfold strip
  rw [hl]
  unfold rstrip
  have hr : ('#' :: '#' :: t).reverse = t.reverse ++ '#' :: ['#'] := by simp
  rw [hr]
  obtain ⟨z, hz⟩ := dropWhile_hash t.reverse ['#']
  rw [hz, List.reverse_append]
  rw [lit_hh]
  simp [startswith, startswith_nil]

theorem chain'_getD {R : Chars → Chars → Prop} :
    ∀ l : List Chars, List.Chain' R l → ∀ k, k + 1 < l.length →
      R (l.getD k []) (l.getD (k + 1) []) := by
  intro l
  induction l with
  | nil => intro _ k hk; simp at hk
  | cons a l' ih =>
    intro hch k hk
    cases l' with
    | nil => simp at hk
    | cons b t =>
      rcases k with _ | k'
      · simpa using (List.chain'_cons.mp hch).1
      · have htail : List.Chain' R (b :: t) := (List.chain'_cons.mp hch).2
        simpa using ih htail k' (by simpa using hk)

theorem isEmpty_eq (l : Chars) : l.isEmpty = true ↔ l = [] := by
  cases l <;> simp

theorem addBlank_head_R :
    ∀ (ms : List Chars) (l b : Chars),
      (addBlankBefore (some l) ms).head? = some b → blankAfterHdr l b := by
  intro ms l b hb
  cases ms with
  | nil => simp [addBlankBefore] at hb
  | cons m ms' =>
    by_cases hc : (startswith (strip m) (lit "##") && !(strip l).isEmpty) = true
    · have : b = [] := by
        simp only [addBlankBefore] at hb
        rw [if_pos hc] at hb
        simp at hb
        exact hb
      subst this
      intro hh
      exact absurd hh (by decide)
    · have : b = m := by
        simp only [addBlankBefore] at hb
        rw [if_neg hc] at hb
        simp at hb
        exact hb.symm
      subst this
      intro hh
      rw [hh] at hc
      simp at hc
      exact hc

theorem addBlank_chain :
    ∀ (ls : List Chars) (prev : Option Chars),
      List.Chain' blankAfterHdr (addBlankBefore prev ls) := by
  intro ls
  induction ls with
  | nil => intro prev; simp [addBlankBefore]
  | cons m ms ih =>
    intro prev
    by_cases hc : (startswith (strip m) (lit "##") &&
        (match prev with
         | some p => !(strip p).isEmpty
         | none => false)) = true
    · simp only [addBlankBefore, if_pos hc]
      refine List.chain'_cons.mpr ⟨fun _ => rfl, ?_⟩
      refine List.chain'_cons'.mpr ⟨?_, ih (some m)⟩
      intro y hy
      exact addBlank_head_R ms m y hy
    · simp only [addBlankBefore, if_neg hc, List.nil_append]
      refine List.chain'_cons'.mpr ⟨?_, ih (some m)⟩
      intro y hy
      exact addBlank_head_R ms m y hy

theorem cap_head0 : ∀ ls : List Chars, (capBlanks 0 ls).head? = ls.head? := by
  intro ls
  cases ls with
  | nil => rfl
  | cons l ls' =>
    by_cases hb : (strip l).isEmpty = true <;> simp [capBlanks, hb]

theorem cap_chain :
    ∀ (ls : List Chars) (k : Nat), List.Chain' blankAfterHdr ls →
      List.Chain' blankAfterHdr (capBlanks k ls) := by
  intro ls
  induction ls with
  | nil => intro k _; simp [capBlanks]
  | cons l ls' ih =>
    intro k hch
    have htail : List.Chain' blankAfterHdr ls' := by
      cases ls' with
      | nil => exact List.chain'_nil
      | cons b t => exact (List.chain'_cons.mp hch).2
    by_cases hb : (strip l).isEmpty = true
    · by_cases hk : k + 1 ≤ 2
      · simp only [capBlanks, if_pos hb, if_pos hk]
        refine List.chain'_cons'.mpr ⟨?_, ih (k + 1) htail⟩
        intro y _
        intro _
        exact (isEmpty_eq _).mp hb
      · simp only [capBlanks, if_pos hb, if_neg hk]
        exact ih (k + 1) htail
    · simp only [capBlanks, if_neg hb]
      refine List.chain'_cons'.mpr ⟨?_, ih 0 htail⟩
      intro y hy
      rw [cap_head0] at hy
      cases ls' with
      | nil => simp at hy
      | cons b t =>
        have : b = y := by simpa using hy
        subst this
        exact (List.chain'_cons.mp hch).1

theorem addBlank_mem :
    ∀ (ls : List Chars) (prev : Option Chars) (t : Chars),
      t ∈ addBlankBefore prev ls → t = [] ∨ t ∈ ls := by
  intro ls
  induction ls with
  | nil => intro prev t ht; simp [addBlankBefore] at ht
  | cons m ms ih =>
    intro prev t ht
    simp only [addBlankBefore, List.mem_append] at ht
    rcases ht with hpre | hrest
    · left
      split at hpre <;> simpa using hpre
    · rcases List.mem_cons.mp hrest with h | h
      · right; exact h ▸ List.mem_cons_self _ _
      · rcases ih (some m) t h with h2 | h2
        · exact Or.inl h2
        · exact Or.inr (List.mem_cons_of_mem _ h2)

theorem capBlanks_mem :
    ∀ (ls : List Chars) (k : Nat) (t : Chars), t ∈ capBlanks k ls → t ∈ ls := by
  intro ls
  induction ls with
  | nil => intro k t ht; simp [capBlanks] at ht
  | cons l ls' ih =>
    intro k t ht
    by_cases hb : (strip l).isEmpty = true
    · by_cases hk : k + 1 ≤ 2
      · simp only [capBlanks, if_pos hb, if_pos hk] at ht
        rcases List.mem_cons.mp ht with h | h
        · exact h ▸ List.mem_cons_self _ _
        · exact List.mem_cons_of_mem _ (ih _ _ h)
      · simp only [capBlanks, if_pos hb, if_neg hk] at ht
        exact List.mem_cons_of_mem _ (ih _ _ ht)
    · simp only [capBlanks, if_neg hb] at ht
      rcases List.mem_cons.mp ht with h | h
      · exact h ▸ List.mem_cons_self _ _
      · exact List.mem_cons_of_mem _ (ih _ _ h)

theorem cleanLoop_succ (lines : List Chars) (fuel i : Nat) :
    cleanLoop lines (fuel + 1) i =
      (if i < lines.length then
        if startswith (strip (lines.getD i [])) (lit "## Specifications") &&
           !(scanData lines i).1 then
          cleanLoop lines fuel (scanData lines i).2
        else if noFoundB (strip (lines.getD i [])) then cleanLoop lines fuel (i + 1)
        else if truncHeaderB (strip (lines.getD i [])) then cleanLoop lines fuel (i + 1)
        else lines.getD i [] :: cleanLoop lines fuel (i + 1)
      else []) := rfl

theorem cleanGo_keep (lines : List Chars) (i : Nat) (hi : i < lines.length)
    (hspec : (startswith (strip (lines.getD i [])) (lit "## Specifications") &&
      !(scanData lines i).1) = false)
    (hnf : noFoundB (strip (lines.getD i [])) = false)
    (htr : truncHeaderB (strip (lines.getD i [])) = false) :
    cleanGo lines i = lines.getD i [] :: cleanGo lines (i + 1) := by
  unfold cleanGo
  have h1 : lines.length - i = (lines.length - (i + 1)) + 1 := by omega
  rw [h1, cleanLoop_succ, if_pos hi, hspec, hnf, htr]
  simp

theorem cleanGo_dropNoFound (lines : List Chars) (i : Nat) (hi : i < lines.length)
    (hgate : (startswith (strip (lines.getD i [])) (lit "## Specifications") &&
      !(scanData lines i).1) = false)
    (hnf : noFoundB (strip (lines.getD i [])) = true) :
    cleanGo lines i = cleanGo lines (i + 1) := by
  unfold cleanGo
  have h1 : lines.length - i = (lines.length - (i + 1)) + 1 := by omega
  rw [h1, cleanLoop_succ, if_pos hi, hgate, hnf]
  simp

theorem scan_hits (lines : List Chars) :
    ∀ fuel j0 j : Nat, j0 ≤ j → j < j0 + fuel → j < lines.length →
      (∀ m, j0 ≤ m → m < j → breaksScan (strip (lines.getD m [])) = false) →
      startswith (strip (lines.getD j [])) (lit "|") = true →
      startswith (strip (lines.getD j [])) (lit "|---") = false →
      4 ≤ countChar '|' (strip (lines.getD j [])) →
      (rowCells (strip (lines.getD j []))).any
        (fun p => !placeholdersL.contains p) = true →
      (scanLoop lines j0 fuel).1 = true := by
  intro fuel
  induction fuel with
  | zero => intro j0 j h1 h2 _ _ _ _ _ _; omega
  | succ f ih =>
    intro j0 j h1 h2 hjlen hnb hsw hsw2 hcount hany
    by_cases hj0 : j0 = j
    · subst hj0
      have hpipe : hasChar '|' (strip (lines.getD j0 [])) = true :=
        startswith_pipe_hasChar _ hsw
      obtain ⟨p, hp, hpf⟩ := List.any_eq_true.mp hany
      have hne : (rowCells (strip (lines.getD j0 []))).isEmpty = false := by
        cases hrx : rowCells (strip (lines.getD j0 [])) with
        | nil => rw [hrx] at hp; simp at hp
        | cons a l => simp
      have hall : ((rowCells (strip (lines.getD j0 []))).all
          (fun p => placeholdersL.contains p)) = false := by
        cases hv : (rowCells (strip (lines.getD j0 []))).all
            (fun p => placeholdersL.contains p) with
        | false => rfl
        | true =>
          have h3 := List.all_eq_true.mp hv p hp
          rw [h3] at hpf
          simp at hpf
      simp only [scanLoop]
      rw [if_pos hjlen, hsw, hsw2, hpipe, decide_eq_true hcount, hne, hall]
      simp
    · have hj0len : j0 < lines.length := by omega
      have hnb0 : breaksScan (strip (lines.getD j0 [])) = false :=
        hnb j0 le_rfl (by omega)
      have hrec : (scanLoop lines (j0 + 1) f).1 = true :=
        ih (j0 + 1) j (by omega) (by omega) hjlen
          (fun m hm1 hm2 => hnb m (by omega) hm2) hsw hsw2 hcount hany
      simp only [scanLoop]
      rw [if_pos hj0len]
      split
      · split
        · split
          · rfl
          · exact hrec
        · exact hrec
      · split
        · rename_i hD
          rw [hnb0] at hD
          exact absurd hD (by simp)
        · exact hrec

/-! ## Claims -/

theorem not_bang_true {b : Bool} (h : b = true) : ¬ ((!b) = true) := by
  rw [h]; simp

/-- C1 counterexample: on the document "|x|\n|---|" the in-region separator
line is not replaced by the single canonical separator line; the output
instead contains an additional "| Category | Specification | Value |" header
line in its place (three output lines instead of two). -/
theorem C1_counterexample :
    fix_markdown_tables (lit "|x|\n|---|") ≠
      lit "|x|\n|----------|---------------|-------|" ∧
    fix_markdown_tables (lit "|x|\n|---|") =
      lit "|x|\n| Category | Specification | Value |\n|----------|---------------|-------|" := by
  exact ⟨by decide, by decide⟩

/-- C1 (amended): every line that, after trimming, starts with the delimiter
and contains the separator marker "---" is replaced by the row fixer with TWO
canonical lines — the header row "| Category | Specification | Value |"
followed by the canonical separator "|----------|---------------|-------|" —
regardless of the original column count. -/
theorem C1_separator_amended (line : Chars)
    (h1 : startswith (strip line) (lit "|") = true)
    (h2 : isSub (lit "---") line = true) :
    fix_table_row line = canonicalRows := by
  unfold fix_table_row
  rw [if_neg (not_bang_true h1), if_pos h2]

/-- Witness for C1: the amended behaviour at the concrete separator "|---|". -/
theorem C1_separator_amended_witness :
    startswith (strip (lit "|---|")) (lit "|") = true ∧
    isSub (lit "---") (lit "|---|") = true ∧
    fix_table_row (lit "|---|") = canonicalRows :=
  ⟨by decide, by decide, C1_separator_amended (lit "|---|") (by decide) (by decide)⟩

/-- C2 counterexample: fix_markdown_tables is not idempotent — on
"|x|\n|---|" a second run duplicates the canonical header line again. -/
theorem C2_counterexample :
    fix_markdown_tables (fix_markdown_tables (lit "|x|\n|---|")) ≠
      fix_markdown_tables (lit "|x|\n|---|") := by
  decide

/-- C2 (amended): fix_markdown_tables is idempotent on every document that
contains no occurrence of the separator marker "---" (on such documents it is
the identity); in general each run inserts a fresh header line ahead of every
separator, so idempotence fails. -/
theorem C2_idempotent_amended (content : Chars)
    (h : isSub (lit "---") content = false) :
    fix_markdown_tables (fix_markdown_tables content) = fix_markdown_tables content := by
  rw [fmt_identity content h, fmt_identity content h]

/-- Witness for C2: the amended idempotence at a concrete dash-free document. -/
theorem C2_idempotent_amended_witness :
    isSub (lit "---") (lit "| a | b |\nplain text") = false ∧
    fix_markdown_tables (fix_markdown_tables (lit "| a | b |\nplain text")) =
      fix_markdown_tables (lit "| a | b |\nplain text") :=
  ⟨by decide, C2_idempotent_amended (lit "| a | b |\nplain text") (by decide)⟩

/-- C3: for every table row line (trimmed line starting with the delimiter)
with exactly 4 cells, fix_table_line outputs a 3-cell row keeping the first
two cells; the 3rd cell is "c3 - c4" when both are nonempty, and the
non-empty one alone (no dangling joiner) when exactly one is empty. -/
theorem C3_fourcell_merge (line c1 c2 c3 c4 : Chars)
    (h1 : startswith (strip line) (lit "|") = true)
    (h2 : rowCells line = [c1, c2, c3, c4]) :
    (∃ m, fix_table_line line =
        lit "| " ++ c1 ++ lit " | " ++ c2 ++ lit " | " ++ m ++ lit " |\n") ∧
    (c3 ≠ [] → c4 ≠ [] →
      fix_table_line line =
        lit "| " ++ c1 ++ lit " | " ++ c2 ++ lit " | " ++
          (c3 ++ lit " - " ++ c4) ++ lit " |\n") ∧
    (c3 = [] → c4 ≠ [] →
      fix_table_line line =
        lit "| " ++ c1 ++ lit " | " ++ c2 ++ lit " | " ++ c4 ++ lit " |\n") ∧
    (c3 ≠ [] → c4 = [] →
      fix_table_line line =
        lit "| " ++ c1 ++ lit " | " ++ c2 ++ lit " | " ++ c3 ++ lit " |\n") := by
  have hfix : fix_table_line line =
      lit "| " ++ c1 ++ lit " | " ++ c2 ++ lit " | " ++
      (if !c3.isEmpty && !c4.isEmpty then c3 ++ lit " - " ++ c4
       else if !c3.isEmpty then c3 else c4) ++ lit " |\n" := by
    unfold fix_table_line
    rw [if_neg (not_bang_true h1), h2]
  refine ⟨⟨_, hfix⟩, ?_, ?_, ?_⟩
  · intro hc3 hc4
    have e3 : c3.isEmpty = false := by cases c3 with
      | nil => exact absurd rfl hc3
      | cons a t => rfl
    have e4 : c4.isEmpty = false := by cases c4 with
      | nil => exact absurd rfl hc4
      | cons a t => rfl
    rw [hfix]
    simp [e3, e4]
  · intro hc3 hc4
    subst hc3
    have e4 : c4.isEmpty = false := by cases c4 with
      | nil => exact absurd rfl hc4
      | cons a t => rfl
    rw [hfix]
    simp [e4]
  · intro hc3 hc4
    subst hc4
    have e3 : c3.isEmpty = false := by cases c3 with
      | nil => exact absurd rfl hc3
      | cons a t => rfl
    rw [hfix]
    simp [e3]

/-- Witness for C3: the spec's end-to-end example row. -/
theorem C3_fourcell_merge_witness :
    rowCells (lit "| GPU | Memory | 16 | GB |") =
      [lit "GPU", lit "Memory", lit "16", lit "GB"] ∧
    fix_table_line (lit "| GPU | Memory | 16 | GB |") =
      lit "| GPU | Memory | 16 - GB |\n" := by
  refine ⟨by decide, ?_⟩
  have h := (C3_fourcell_merge (lit "| GPU | Memory | 16 | GB |")
    (lit "GPU") (lit "Memory") (lit "16") (lit "GB")
    (by decide) (by decide)).2.1 (by decide) (by decide)
  exact h.trans (by decide)

/-- C4 counterexample: "| a |  | c | d | e |" has 5 cells (more than 4), but
the rewriter discards the empty 2nd cell before merging: the output's cells
are [a, c, d - e], so cell 2 is not preserved and cell 3 is not
"c - d - e". -/
theorem C4_counterexample :
    rowCells (lit "| a |  | c | d | e |") = [lit "a", [], lit "c", lit "d", lit "e"] ∧
    fix_table_row (lit "| a |  | c | d | e |") = lit "| a | c | d - e |\n" ∧
    rowCells (lit "| a | c | d - e |") = [lit "a", lit "c", lit "d - e"] :=
  ⟨by decide, by decide, by decide⟩

/-- C4 (amended): for every table row line (trimmed line starting with the
delimiter, not containing "---") with more than 4 delimiter characters, the
rewriter first discards empty cells; when more than 3 nonempty trimmed
fragments remain, the output keeps the first two NONEMPTY fragments and joins
the remaining nonempty fragments from the 3rd onward with " - ". Original
cells 1-2 are preserved verbatim only when no earlier cell is empty. -/
theorem C4_gtfour_merge_amended (line c1 c2 c3 c4 : Chars) (rest : List Chars)
    (h1 : startswith (strip line) (lit "|") = true)
    (h2 : isSub (lit "---") line = false)
    (h3 : 4 < countChar '|' line)
    (h4 : pipeParts line = c1 :: c2 :: c3 :: c4 :: rest) :
    fix_table_row line =
      lit "| " ++ c1 ++ lit " | " ++ c2 ++ lit " | " ++
        joinSep (lit " - ") (c3 :: c4 :: rest) ++ lit " |\n" := by
  have hne4 : ¬ (countChar '|' line = 4) := by omega
  have hnd : ¬ (isSub (lit "---") line = true) := by rw [h2]; simp
  unfold fix_table_row
  rw [if_neg (not_bang_true h1), if_neg hnd, if_neg hne4, if_pos h3, h4]
  simp

/-- Witness for C4: the spec's end-to-end example row "| A | B | C | D | E |". -/
theorem C4_gtfour_merge_amended_witness :
    pipeParts (lit "| A | B | C | D | E |") =
      [lit "A", lit "B", lit "C", lit "D", lit "E"] ∧
    fix_table_row (lit "| A | B | C | D | E |") = lit "| A | B | C - D - E |\n" := by
  refine ⟨by decide, ?_⟩
  have h := C4_gtfour_merge_amended (lit "| A | B | C | D | E |")
    (lit "A") (lit "B") (lit "C") (lit "D") [lit "E"]
    (by decide) (by decide) (by decide) (by decide)
  exact h.trans (by decide)

/-- C5 counterexample: the row "| a --- b |" has a single cell (fewer than 3),
yet fix_table_row replaces it wholesale with the canonical header/separator
pair because it contains the separator marker. -/
theorem C5_counterexample :
    (rowCells (lit "| a --- b |")).length < 3 ∧
    fix_table_row (lit "| a --- b |") ≠ lit "| a --- b |" :=
  ⟨by decide, by decide⟩

/-- C5 (amended): every row with fewer than 3 cells that does not contain the
separator marker "---" passes through both row fixers completely unchanged:
it is never merged, padded, or dropped. -/
theorem C5_short_rows_amended (line : Chars)
    (hlen : (rowCells line).length < 3)
    (hnd : isSub (lit "---") line = false) :
    fix_table_row line = line ∧ fix_table_line line = line := by
  have hlen2 := rowCells_len line
  constructor
  · by_cases hsw : startswith (strip line) (lit "|") = true
    · have hcount : ¬ (4 < countChar '|' line) := by omega
      have hnd2 : ¬ (isSub (lit "---") line = true) := by rw [hnd]; simp
      unfold fix_table_row
      rw [if_neg (not_bang_true hsw), if_neg hnd2]
      by_cases h4 : countChar '|' line = 4
      · rw [if_pos h4]
      · rw [if_neg h4, if_neg hcount]
    · have hb : startswith (strip line) (lit "|") = false := by
        cases hv : startswith (strip line) (lit "|") with
        | false => rfl
        | true => exact absurd hv hsw
      unfold fix_table_row
      rw [if_pos (by rw [hb]; rfl)]
  · by_cases hsw : startswith (strip line) (lit "|") = true
    · unfold fix_table_line
      rw [if_neg (not_bang_true hsw)]
      rcases hrx : rowCells line with _ | ⟨a, _ | ⟨b, _ | ⟨c, t⟩⟩⟩
      · rfl
      · rfl
      · rfl
      · rw [hrx] at hlen
        simp at hlen
        omega
    · have hb : startswith (strip line) (lit "|") = false := by
        cases hv : startswith (strip line) (lit "|") with
        | false => rfl
        | true => exact absurd hv hsw
      unfold fix_table_line
      rw [if_pos (by rw [hb]; rfl)]

/-- Witness for C5: the 1-cell row "| a |" is left unchanged by both passes. -/
theorem C5_short_rows_amended_witness :
    (rowCells (lit "| a |")).length < 3 ∧
    isSub (lit "---") (lit "| a |") = false ∧
    (fix_table_row (lit "| a |") = lit "| a |" ∧
     fix_table_line (lit "| a |") = lit "| a |") :=
  ⟨by decide, by decide, C5_short_rows_amended (lit "| a |") (by decide) (by decide)⟩

/-- C6 counterexample: the section "## Specifications\n| foo |" has a
lookahead row whose single cell "foo" is outside the placeholder set, yet the
pruner removes the whole section (output empty): rows with fewer than 4
delimiter characters never count as evidence. -/
theorem C6_counterexample :
    clean_markdown (lit "## Specifications\n| foo |") = [] ∧
    rowCells (lit "| foo |") = [lit "foo"] ∧
    placeholdersL.contains (lit "foo") = false :=
  ⟨by decide, by decide, by decide⟩

/-- C6 (amended): the pruner keeps a '## Specifications' header whenever the
bounded scan finds evidence: if some line j in the window i+1 ≤ j < i+5,
reached without any earlier window line being nonempty non-'|' non-'#' prose,
starts (after trimming) with '|' but not with '|---', has at least 4
delimiter characters, and has a cell outside the placeholder set, then the
scan reports data and (provided the header itself matches neither the
'(No…found)' rule nor the trailing-'(' rule) the header line is kept and
processing continues at the next line. -/
theorem C6_pruner_amended (lines : List Chars) (i j : Nat)
    (hi : i < lines.length)
    (hhdr : startswith (strip (lines.getD i [])) (lit "## Specifications") = true)
    (hnf : noFoundB (strip (lines.getD i [])) = false)
    (htr : truncHeaderB (strip (lines.getD i [])) = false)
    (hij : i + 1 ≤ j) (hjw : j < i + 5) (hjlen : j < lines.length)
    (hnb : ∀ m, i + 1 ≤ m → m < j → breaksScan (strip (lines.getD m [])) = false)
    (hsw : startswith (strip (lines.getD j [])) (lit "|") = true)
    (hsw2 : startswith (strip (lines.getD j [])) (lit "|---") = false)
    (hcount : 4 ≤ countChar '|' (strip (lines.getD j [])))
    (hany : (rowCells (strip (lines.getD j []))).any
        (fun p => !placeholdersL.contains p) = true) :
    (scanData lines i).1 = true ∧
    cleanGo lines i = lines.getD i [] :: cleanGo lines (i + 1) := by
  have hscan : (scanData lines i).1 = true := by
    unfold scanData
    exact scan_hits lines 4 (i + 1) j hij (by omega) hjlen hnb hsw hsw2 hcount hany
  refine ⟨hscan, ?_⟩
  apply cleanGo_keep lines i hi ?_ hnf htr
  rw [hscan]
  simp

/-- Witness for C6: a section whose first lookahead row "| Foo | Bar | Baz |"
carries data is kept. -/
theorem C6_pruner_amended_witness :
    startswith
      (strip ([lit "## Specifications", lit "| Foo | Bar | Baz |"].getD 1 []))
      (lit "|") = true ∧
    (scanData [lit "## Specifications", lit "| Foo | Bar | Baz |"] 0).1 = true ∧
    cleanGo [lit "## Specifications", lit "| Foo | Bar | Baz |"] 0 =
      [lit "## Specifications", lit "| Foo | Bar | Baz |"].getD 0 [] ::
        cleanGo [lit "## Specifications", lit "| Foo | Bar | Baz |"] 1 := by
  refine ⟨by decide, ?_, ?_⟩
  · exact (C6_pruner_amended [lit "## Specifications", lit "| Foo | Bar | Baz |"] 0 1
      (by decide) (by decide) (by decide) (by decide) (by decide) (by decide) (by decide)
      (fun m hm1 hm2 => by omega) (by decide) (by decide) (by decide) (by decide)).1
  · exact (C6_pruner_amended [lit "## Specifications", lit "| Foo | Bar | Baz |"] 0 1
      (by decide) (by decide) (by decide) (by decide) (by decide) (by decide) (by decide)
      (fun m hm1 hm2 => by omega) (by decide) (by decide) (by decide) (by decide)).2

/-- C7 counterexample: in "## Features\n(No features found)\nbody" only the
absence-message line is dropped — the section's header line and the remaining
body line survive, so the entire section is not removed. -/
theorem C7_counterexample :
    clean_markdown (lit "## Features\n(No features found)\nbody") =
      lit "## Features\nbody" := by
  decide

/-- C7 (amended): a line containing "(No" and (case-insensitively) "found" is
itself dropped by the pruner, which then continues with the very next line —
the section's header and its other body lines are not affected by this rule —
provided the empty-'## Specifications' rule does not fire on that line first,
i.e. the trimmed line does not start with "## Specifications", or the bounded
lookahead scan does find data; when that other rule fires, it takes
precedence and may skip several lines. -/
theorem C7_noFound_amended (lines : List Chars) (i : Nat)
    (hi : i < lines.length)
    (hno : isSub (lit "(No") (strip (lines.getD i [])) = true)
    (hfound : isSub (lit "found") (lower (strip (lines.getD i []))) = true)
    (hgate : (startswith (strip (lines.getD i [])) (lit "## Specifications") &&
      !(scanData lines i).1) = false) :
    cleanGo lines i = cleanGo lines (i + 1) := by
  apply cleanGo_dropNoFound lines i hi hgate
  unfold noFoundB
  rw [hno, hfound]
  rfl

/-- Witness for C7: the header "## Specifications (No data found)" of a
section whose lookahead row does carry data is dropped alone — processing
continues at the very next line. -/
theorem C7_noFound_amended_witness :
    isSub (lit "(No")
      (strip ([lit "## Specifications (No data found)", lit "| X | Y | Z |"].getD 0 [])) =
      true ∧
    cleanGo [lit "## Specifications (No data found)", lit "| X | Y | Z |"] 0 =
      cleanGo [lit "## Specifications (No data found)", lit "| X | Y | Z |"] 1 :=
  ⟨by decide,
   C7_noFound_amended [lit "## Specifications (No data found)", lit "| X | Y | Z |"] 0
     (by decide) (by decide) (by decide) (by decide)⟩

/-- C8 counterexample: on "a\n\n\n## H" the spacing pass outputs the document
unchanged — the header line (index 3) is preceded by blank lines at indices 2
AND 1, so a header is not always preceded by EXACTLY one blank line. -/
theorem C8_counterexample :
    startswith ((splitChar '\n' (fix_markdown_spacing (lit "a\n\n\n## H"))).getD 3 [])
      (lit "##") = true ∧
    strip ((splitChar '\n' (fix_markdown_spacing (lit "a\n\n\n## H"))).getD 2 []) = [] ∧
    strip ((splitChar '\n' (fix_markdown_spacing (lit "a\n\n\n## H"))).getD 1 []) = [] ∧
    (splitChar '\n' (fix_markdown_spacing (lit "a\n\n\n## H"))).length = 4 :=
  ⟨by decide, by decide, by decide, by decide⟩

/-- C8 (amended): in the output of the spacing pass, every line starting with
"##" that is not the first output line is immediately preceded by a blank
line (at least one — there may be two, so "exactly one" does not hold). -/
theorem C8_blank_before_header_amended (content : Chars) (k : Nat)
    (hlen : k + 1 < (splitChar '\n' (fix_markdown_spacing content)).length)
    (hhdr : startswith ((splitChar '\n' (fix_markdown_spacing content)).getD (k + 1) [])
      (lit "##") = true) :
    strip ((splitChar '\n' (fix_markdown_spacing content)).getD k []) = [] := by
  have hch : List.Chain' blankAfterHdr
      (capBlanks 0 (addBlankBefore none (splitChar '\n' (fixConcat content)))) :=
    cap_chain _ 0 (addBlank_chain _ none)
  have hnn : ∀ t ∈ capBlanks 0 (addBlankBefore none (splitChar '\n' (fixConcat content))),
      hasChar '\n' t = false := by
    intro t ht
    rcases addBlank_mem _ _ _ (capBlanks_mem _ _ _ ht) with h2 | h2
    · subst h2; rfl
    · exact splitChar_hasChar '\n' _ t h2
  rcases hFnil : capBlanks 0 (addBlankBefore none (splitChar '\n' (fixConcat content)))
    with _ | ⟨f, fs⟩
  · have hout : fix_markdown_spacing content = [] := by
      unfold fix_markdown_spacing
      rw [hFnil]
      rfl
    rw [hout] at hlen
    simp [splitChar, splitCharP] at hlen
  · have hout : splitChar '\n' (fix_markdown_spacing content) = f :: fs := by
      unfold fix_markdown_spacing
      rw [hFnil, lit_nl]
      exact splitChar_joinSep '\n' (f :: fs) (by simp) (hFnil ▸ hnn)
    rw [hout] at hlen hhdr ⊢
    have hch2 : List.Chain' blankAfterHdr (f :: fs) := hFnil ▸ hch
    exact chain'_getD (f :: fs) hch2 k hlen (startswith_strip_hash _ hhdr)

/-- Witness for C8: in the output of "a\n## H" the header (index 2) is
preceded by a blank line (index 1). -/
theorem C8_blank_before_header_amended_witness :
    1 + 1 < (splitChar '\n' (fix_markdown_spacing (lit "a\n## H"))).length ∧
    startswith ((splitChar '\n' (fix_markdown_spacing (lit "a\n## H"))).getD 2 [])
      (lit "##") = true ∧
    strip ((splitChar '\n' (fix_markdown_spacing (lit "a\n## H"))).getD 1 []) = [] :=
  ⟨by decide, by decide,
   C8_blank_before_header_amended (lit "a\n## H") 1 (by decide) (by decide)⟩

/-- C9 counterexample: invoked with only an input path, the fix-4col stage
writes to "<input>.fixed", not back to the input path. -/
theorem C9_counterexample :
    fix4col_paths [lit "fix-4col-tables.py", lit "doc.md"] =
      some (lit "doc.md", lit "doc.md.fixed") ∧
    lit "doc.md.fixed" ≠ lit "doc.md" :=
  ⟨by decide, by decide⟩

/-- C9 (amended): with exactly one path argument, the tables, sections and
spacing stages default to in-place overwrite (output path = input path),
while the 4-column stage defaults to writing to input ++ ".fixed". -/
theorem C9_paths_amended (argv : List Chars) (inp : Chars)
    (hlen : argv.length = 2) (hinp : argv.getD 1 [] = inp) :
    tables_paths argv = some (inp, inp) ∧
    clean_paths argv = some (inp, inp) ∧
    spacing_paths argv = some (inp, inp) ∧
    fix4col_paths argv = some (inp, inp ++ lit ".fixed") := by
  subst hinp
  unfold tables_paths clean_paths spacing_paths fix4col_paths
  rw [hlen]
  simp

/-- Witness for C9: the concrete invocation with argv = [prog, "in.md"]. -/
theorem C9_paths_amended_witness :
    [lit "prog", lit "in.md"].length = 2 ∧
    (tables_paths [lit "prog", lit "in.md"] = some (lit "in.md", lit "in.md") ∧
     clean_paths [lit "prog", lit "in.md"] = some (lit "in.md", lit "in.md") ∧
     spacing_paths [lit "prog", lit "in.md"] = some (lit "in.md", lit "in.md") ∧
     fix4col_paths [lit "prog", lit "in.md"] =
       some (lit "in.md", lit "in.md" ++ lit ".fixed")) :=
  ⟨by decide, C9_paths_amended [lit "prog", lit "in.md"] (lit "in.md") (by decide) (by decide)⟩

/-- C10: there is a document on which the pruner, judging a
'## Specifications' section evidence-free, removes lines beyond that section:
the skip lands where the bounded scan stopped, and since '#'-prefixed lines
never stop the scan, the next section's header "## Next" is swallowed: only
"body" survives. -/
theorem C10_prune_overshoot :
    clean_markdown (lit "## Specifications\n| Category | Specification | Value |\n|---|---|---|\n## Next\nbody") =
      lit "body" := by
  decide
